import Mathlib

/-!
Verification development for the banking REST service's double-entry ledger
and funds-transfer execution engine.

The repository's source (src/banking_rest_service) contains the persistent
data model (models/account.py, models/transaction.py), the pydantic schemas,
and a signup endpoint (api/v1/auth.py).  The transfer-execution core (balance
invariant guard, journal posting engine, transfer state machine, concurrency
controller) is specified in the design document but has no code path in the
source; those components are modelled here from the specification, faithful
to its wording.  Datetime audit columns (created_at, updated_at, requested_at,
executed_at, booking_date, value_date) are omitted: no verified property
reads them.
-/

namespace Banking

/-- Account lifecycle status, from models/account.py `AccountStatus`. -/
inductive AccountStatus where
  | PENDING
  | ACTIVE
  | BLOCKED
  | CLOSED
deriving DecidableEq, Repr

/-- Journal entry lifecycle status, from models/transaction.py `EntryStatus`. -/
inductive EntryStatus where
  | PENDING
  | POSTED
  | REVERSED
deriving DecidableEq, Repr

/-- Debit/credit direction of a journal line, from models/transaction.py `LineDirection`. -/
inductive LineDirection where
  | DEBIT
  | CREDIT
deriving DecidableEq, Repr

/-- Journal entry type, from models/transaction.py `EntryType`. -/
inductive EntryType where
  | TRANSFER
  | CASH_DEPOSIT
  | CASH_WITHDRAWAL
  | FEE
  | INTEREST
  | ADJUSTMENT
deriving DecidableEq, Repr

/-- Transfer lifecycle status, from models/transaction.py `TransferStatus`. -/
inductive TransferStatus where
  | PENDING
  | EXECUTED
  | FAILED
deriving DecidableEq, Repr

/-- Rejection/failure vocabulary of the transfer engine, from the spec's
error taxonomy (§7).  `STORAGE_FAILURE` is kept apart (see `StorageFailure`)
because it propagates as a hard failure rather than a recorded rejection. -/
inductive RejectReason where
  | ACCOUNT_NOT_ACTIVE
  | CURRENCY_MISMATCH
  | INVALID_AMOUNT
  | INVALID_ACCOUNTS
  | INSUFFICIENT_FUNDS
  | TIMEOUT
deriving DecidableEq, Repr

/-- Hard failure of the atomic posting unit (spec §7 `STORAGE_FAILURE`). -/
inductive StorageFailure where
  | STORAGE_FAILURE
deriving DecidableEq, Repr

/-- Customer deposit account, from models/account.py `Account`.
Monetary columns are BigInteger in the source, modelled as `Int`.
Columns not read by any verified property (holder_id, product_id,
account_number, iban, timestamps) are omitted. -/
structure Account where
  id : Nat
  currency_id : Nat
  status : AccountStatus
  balance_minor : Int
  overdraft_limit_minor : Int
deriving DecidableEq, Repr

/-- One accounting event, from models/transaction.py `JournalEntry`. -/
structure JournalEntry where
  id : Nat
  entry_type : EntryType
  status : EntryStatus
  external_reference : Option String
deriving DecidableEq, Repr

/-- One debit/credit line impacting a single account, from
models/transaction.py `JournalEntryLine`. -/
structure JournalEntryLine where
  entry_id : Nat
  account_id : Nat
  direction : LineDirection
  amount_minor : Int
deriving DecidableEq, Repr

/-- Customer money transfer record, from models/transaction.py `Transfer`.
The source `Transfer` table has no external-reference column; the spec's
idempotency contract (§4.4) keys deduplication on the external reference the
request carried, so the model keeps that reference on the stored record. -/
structure Transfer where
  id : Nat
  from_account_id : Nat
  to_account_id : Nat
  amount_minor : Int
  status : TransferStatus
  failure_reason : Option RejectReason
  journal_entry_id : Option Nat
  external_reference : Option String
deriving DecidableEq, Repr

/-- Inbound transfer request, from the spec's external interface (§6) and
schemas/transaction.py `TransferCreate`. -/
structure TransferRequest where
  from_account_id : Nat
  to_account_id : Nat
  amount_minor : Int
  external_reference : Option String
deriving DecidableEq, Repr

/-- The Ledger Store's persisted state: accounts, journal entries, journal
entry lines, transfers (spec §2, §6), plus the id sequences the database
would provide. -/
structure LedgerState where
  accounts : List Account
  entries : List JournalEntry
  lines : List JournalEntryLine
  transfers : List Transfer
  nextEntryId : Nat
  nextTransferId : Nat
deriving DecidableEq, Repr

/-- Account lookup by primary key. -/
def findAccount (s : LedgerState) (aid : Nat) : Option Account :=
  s.accounts.find? (fun a => a.id == aid)

/-- Signed effect of one journal line on its account's balance:
`+amount` for CREDIT, `-amount` for DEBIT (spec §4.2). -/
def lineDelta (l : JournalEntryLine) : Int :=
  match l.direction with
  | .CREDIT => l.amount_minor
  | .DEBIT => -l.amount_minor

/-- Total DEBIT amount of a list of journal lines. -/
def debitSum (ls : List JournalEntryLine) : Int :=
  ((ls.filter (fun l => l.direction == .DEBIT)).map (fun l => l.amount_minor)).sum

/-- Total CREDIT amount of a list of journal lines. -/
def creditSum (ls : List JournalEntryLine) : Int :=
  ((ls.filter (fun l => l.direction == .CREDIT)).map (fun l => l.amount_minor)).sum

/-- A proposed journal line handed to the posting engine (spec §4.2:
`lines: \x7baccount_id, direction, amount_minor\x7d[2+]`). -/
structure LineSpec where
  account_id : Nat
  direction : LineDirection
  amount_minor : Int
deriving DecidableEq, Repr

/-- Total DEBIT amount of a list of proposed lines. -/
def specDebit (ls : List LineSpec) : Int :=
  ((ls.filter (fun l => l.direction == .DEBIT)).map (fun l => l.amount_minor)).sum

/-- Total CREDIT amount of a list of proposed lines. -/
def specCredit (ls : List LineSpec) : Int :=
  ((ls.filter (fun l => l.direction == .CREDIT)).map (fun l => l.amount_minor)).sum

/-- The journal lines the posting engine inserts for entry `eid`. -/
def mkLines (eid : Nat) (ls : List LineSpec) : List JournalEntryLine :=
  ls.map (fun l =>
    { entry_id := eid, account_id := l.account_id,
      direction := l.direction, amount_minor := l.amount_minor })

/-- Apply to one account the balance effect of the lines that reference it:
`balance_minor += (amount if CREDIT else - amount)` per line (spec §4.2). -/
def applyLines (ls : List JournalEntryLine) (a : Account) : Account :=
  { a with balance_minor :=
      a.balance_minor + ((ls.filter (fun l => l.account_id == a.id)).map lineDelta).sum }

/-- Modelled from the spec: precondition of the Journal Posting Engine
(§4.2) — the line set balances (total DEBIT == total CREDIT), it has at
least two lines, and every referenced account exists and is writable
(ACTIVE), each line amount positive (check constraint
ck_journal_entry_lines_amount_positive in models/transaction.py). -/
def postPrecond (s : LedgerState) (ls : List LineSpec) : Bool :=
  specDebit ls == specCredit ls &&
  decide (2 ≤ ls.length) &&
  ls.all (fun l =>
    decide (0 < l.amount_minor) &&
    match findAccount s l.account_id with
    | some a => a.status == .ACTIVE
    | none => false)

/-- Modelled from the spec: the Journal Posting Engine's `post` (§4.2); this
operation has no code path in the source.  When the precondition holds it
inserts the `JournalEntry` row with status POSTED, inserts all the
`JournalEntryLine` rows, and applies each line's signed amount to its
account's balance, all in one state transition (the spec's atomic unit);
otherwise it does nothing and reports failure.  `postedState` is the state
the successful atomic unit commits. -/
def postedState (s : LedgerState) (et : EntryType) (ls : List LineSpec)
    (ref : Option String) : LedgerState :=
  { s with
    entries := { id := s.nextEntryId, entry_type := et, status := .POSTED,
                 external_reference := ref } :: s.entries
    lines := mkLines s.nextEntryId ls ++ s.lines
    accounts := s.accounts.map (applyLines (mkLines s.nextEntryId ls))
    nextEntryId := s.nextEntryId + 1 }

def post (s : LedgerState) (et : EntryType) (ls : List LineSpec)
    (ref : Option String) : Option (Nat × LedgerState) :=
  if postPrecond s ls then
    some (s.nextEntryId, postedState s et ls ref)
  else
    none

/-- Modelled from the spec: the Balance Invariant Guard's decision function
(§4.1), called `admit` there; this operation has no code path in the source.
It is pure (no state argument, no state result): the four checks run in
order, short-circuiting on the first failure. -/
def admission (req : TransferRequest) (fa ta : Account) : Option RejectReason :=
  if fa.status = .ACTIVE ∧ ta.status = .ACTIVE then
    if fa.currency_id = ta.currency_id then
      if 0 < req.amount_minor then
        if 0 ≤ fa.balance_minor - req.amount_minor + fa.overdraft_limit_minor then
          none
        else
          some .INSUFFICIENT_FUNDS
      else
        some .INVALID_AMOUNT
    else
      some .CURRENCY_MISMATCH
  else
    some .ACCOUNT_NOT_ACTIVE

/-- EXECUTED and FAILED are the terminal transfer states (spec §4.3). -/
def isTerminal (st : TransferStatus) : Bool :=
  st == .EXECUTED || st == .FAILED

/-- Idempotency lookup (spec §4.4): an already-stored transfer bearing the
same external reference that reached a terminal state. -/
def findByRef (s : LedgerState) (r : String) : Option Transfer :=
  s.transfers.find? (fun t => t.external_reference == some r && isTerminal t.status)

/-- The two journal lines of a transfer: DEBIT the source account, CREDIT
the destination account, for the requested amount (spec §4.3 step 4). -/
def transferLines (req : TransferRequest) : List LineSpec :=
  [ { account_id := req.from_account_id, direction := .DEBIT,
      amount_minor := req.amount_minor },
    { account_id := req.to_account_id, direction := .CREDIT,
      amount_minor := req.amount_minor } ]

/-- The intake `Transfer` row, created PENDING (spec §4.3 step 1). -/
def intakeTransfer (req : TransferRequest) (s : LedgerState) : Transfer :=
  { id := s.nextTransferId
    from_account_id := req.from_account_id
    to_account_id := req.to_account_id
    amount_minor := req.amount_minor
    status := .PENDING
    failure_reason := none
    journal_entry_id := none
    external_reference := req.external_reference }

/-- Record a transfer resolved as FAILED with its failure reason
(spec §4.3 step 3). -/
def resolveFailed (s : LedgerState) (base : Transfer) (reason : RejectReason) :
    Transfer × LedgerState :=
  let t := { base with status := TransferStatus.FAILED, failure_reason := some reason }
  (t, { s with transfers := t :: s.transfers, nextTransferId := s.nextTransferId + 1 })

/-- Record a transfer resolved as EXECUTED, linked to the journal entry the
posting engine committed (spec §4.3 step 4).  `s₁` is the post-posting
state. -/
def resolveExecuted (s₁ : LedgerState) (base : Transfer) (eid : Nat) :
    Transfer × LedgerState :=
  let t := { base with status := TransferStatus.EXECUTED, journal_entry_id := some eid }
  (t, { s₁ with transfers := t :: s₁.transfers, nextTransferId := s₁.nextTransferId + 1 })

/-- Modelled from the spec: one fresh execution attempt of the Transfer
State Machine (§4.3), no idempotency; this operation has no code path in the
source.  Self-transfer is rejected before lock acquisition with
INVALID_ACCOUNTS; a non-existent account is rejected with INVALID_ACCOUNTS
(§7); then the Balance Invariant Guard decides; on admission the Journal
Posting Engine posts DEBIT-from / CREDIT-to and the transfer is resolved
EXECUTED with the entry linked.  Lock acquisition and release (§5) serialize
executions and are modelled separately (`Proc`, `Deadlocked`); the state
machine itself runs between acquire and release. -/
def executeFresh (req : TransferRequest) (s : LedgerState) :
    Except StorageFailure (Transfer × LedgerState) :=
  let base := intakeTransfer req s
  if req.from_account_id == req.to_account_id then
    .ok (resolveFailed s base .INVALID_ACCOUNTS)
  else
    match findAccount s req.from_account_id, findAccount s req.to_account_id with
    | some fa, some ta =>
      match admission req fa ta with
      | some reason => .ok (resolveFailed s base reason)
      | none =>
        match post s .TRANSFER (transferLines req) req.external_reference with
        | some (eid, s₁) => .ok (resolveExecuted s₁ base eid)
        | none => .error .STORAGE_FAILURE
    | _, _ => .ok (resolveFailed s base .INVALID_ACCOUNTS)

/-- Modelled from the spec: the Transfer State Machine's `execute` (§4.3)
with the idempotency contract (§4.4); this operation has no code path in the
source.  If a terminal transfer already bears the request's external
reference, that existing result is returned and nothing is re-applied;
otherwise a fresh attempt runs. -/
def execute (req : TransferRequest) (s : LedgerState) :
    Except StorageFailure (Transfer × LedgerState) :=
  match req.external_reference with
  | some r =>
    match findByRef s r with
    | some t => .ok (t, s)
    | none => executeFresh req s
  | none => executeFresh req s

/-- The ledger state an observer sees after an `execute` call: the new state
on success, the unchanged state when the attempt aborts hard. -/
def stateAfter (req : TransferRequest) (s : LedgerState) : LedgerState :=
  match execute req s with
  | .ok (_, s') => s'
  | .error _ => s

/-- The empty initial ledger. -/
def initState : LedgerState :=
  { accounts := [], entries := [], lines := [], transfers := [],
    nextEntryId := 0, nextTransferId := 0 }

/-- Observable operations on the ledger: administrative account creation
(balance starts at the source's column default 0, overdraft non-negative per
ck_accounts_overdraft_non_negative), administrative status transitions
(spec §6: account lifecycle is external to the core), and transfer
execution. -/
inductive Op where
  | createAccount (aid currency : Nat) (status : AccountStatus) (overdraft : Int)
  | setStatus (aid : Nat) (status : AccountStatus)
  | transfer (req : TransferRequest)

/-- Apply one observable operation to the ledger state. -/
def applyOp (op : Op) (s : LedgerState) : LedgerState :=
  match op with
  | .createAccount aid currency status overdraft =>
    if 0 ≤ overdraft ∧ findAccount s aid = none then
      { s with accounts :=
          { id := aid, currency_id := currency, status := status,
            balance_minor := 0, overdraft_limit_minor := overdraft } :: s.accounts }
    else
      s
  | .setStatus aid status =>
    { s with accounts := s.accounts.map (fun a =>
        if a.id = aid then { a with status := status } else a) }
  | .transfer req => stateAfter req s

/-- The observable points in time: states reached from the empty ledger by
any sequence of operations. -/
inductive Reachable : LedgerState → Prop where
  | init : Reachable initState
  | step (op : Op) {s : LedgerState} : Reachable s → Reachable (applyOp op s)

/-- The lines stored for one journal entry. -/
def entryLines (s : LedgerState) (eid : Nat) : List JournalEntryLine :=
  s.lines.filter (fun l => l.entry_id == eid)

/-- Conservation of money (spec §3, §8): every POSTED journal entry's DEBIT
line amounts sum to the same total as its CREDIT line amounts. -/
def Conservation (s : LedgerState) : Prop :=
  ∀ e ∈ s.entries, e.status = .POSTED →
    debitSum (entryLines s e.id) = creditSum (entryLines s e.id)

/-- Overdraft-policy invariant (spec §3, §8): every account satisfies
`balance_minor + overdraft_limit_minor >= 0`. -/
def NonNeg (s : LedgerState) : Prop :=
  ∀ a ∈ s.accounts, 0 ≤ a.balance_minor + a.overdraft_limit_minor

/-- Whether the journal entry with this id exists and is POSTED. -/
def entryPosted (s : LedgerState) (eid : Nat) : Bool :=
  match s.entries.find? (fun e => e.id == eid) with
  | some e => e.status == .POSTED
  | none => false

/-- The stored journal lines referencing this account whose parent entry is
POSTED. -/
def postedFor (s : LedgerState) (aid : Nat) : List JournalEntryLine :=
  s.lines.filter (fun l => l.account_id == aid && entryPosted s l.entry_id)

/-- Balance-derivation invariant (spec §3, §8): every account's stored
`balance_minor` equals the sum of CREDIT amounts minus the sum of DEBIT
amounts over its POSTED journal lines. -/
def Derivation (s : LedgerState) : Prop :=
  ∀ a ∈ s.accounts,
    a.balance_minor = creditSum (postedFor s a.id) - debitSum (postedFor s a.id)

/-- Structural well-formedness the database schema provides: primary keys
are unique and below the id sequences, and every stored transfer is resolved
(terminal, FAILED ones carry a failure reason, EXECUTED ones a journal entry
link — spec §4.3: a `Transfer` is created and resolved within a single
execution attempt). -/
def WF (s : LedgerState) : Prop :=
  (∀ e ∈ s.entries, e.id < s.nextEntryId) ∧
  (∀ l ∈ s.lines, l.entry_id < s.nextEntryId) ∧
  (∀ t ∈ s.transfers, t.id < s.nextTransferId) ∧
  (s.accounts.map Account.id).Nodup ∧
  (s.transfers.map Transfer.id).Nodup ∧
  (∀ t ∈ s.transfers, isTerminal t.status = true ∧
    (t.status = .FAILED → t.failure_reason.isSome = true) ∧
    (t.status = .EXECUTED → t.journal_entry_id.isSome = true)) ∧
  (∀ l ∈ s.lines, ∃ a ∈ s.accounts, a.id = l.account_id)

instance : DecidablePred WF := by
  intro s
  unfold WF
  infer_instance

lemma admission_eq_none (req : TransferRequest) (fa ta : Account) :
    admission req fa ta = none ↔
      (fa.status = .ACTIVE ∧ ta.status = .ACTIVE) ∧
      fa.currency_id = ta.currency_id ∧
      0 < req.amount_minor ∧
      0 ≤ fa.balance_minor - req.amount_minor + fa.overdraft_limit_minor := by
  unfold admission
  split <;> [skip; simp_all]
  split <;> [skip; simp_all]
  split <;> [skip; simp_all]
  split <;> simp_all

/-- C5: the Balance Invariant Guard's decision performs exactly four checks
in order, short-circuiting on the first failure: (1) both accounts ACTIVE
else ACCOUNT_NOT_ACTIVE; (2) equal currency else CURRENCY_MISMATCH;
(3) positive amount else INVALID_AMOUNT; (4) balance − amount + overdraft
non-negative else INSUFFICIENT_FUNDS; admission after all four.  The guard
is pure by its type: it takes no ledger state and returns only the decision. -/
theorem guard_four_checks_in_order (req : TransferRequest) (fa ta : Account) :
    (admission req fa ta = some .ACCOUNT_NOT_ACTIVE ↔
      ¬(fa.status = .ACTIVE ∧ ta.status = .ACTIVE)) ∧
    (admission req fa ta = some .CURRENCY_MISMATCH ↔
      (fa.status = .ACTIVE ∧ ta.status = .ACTIVE) ∧
      ¬fa.currency_id = ta.currency_id) ∧
    (admission req fa ta = some .INVALID_AMOUNT ↔
      (fa.status = .ACTIVE ∧ ta.status = .ACTIVE) ∧
      fa.currency_id = ta.currency_id ∧ ¬0 < req.amount_minor) ∧
    (admission req fa ta = some .INSUFFICIENT_FUNDS ↔
      (fa.status = .ACTIVE ∧ ta.status = .ACTIVE) ∧
      fa.currency_id = ta.currency_id ∧ 0 < req.amount_minor ∧
      ¬0 ≤ fa.balance_minor - req.amount_minor + fa.overdraft_limit_minor) ∧
    (admission req fa ta = none ↔
      (fa.status = .ACTIVE ∧ ta.status = .ACTIVE) ∧
      fa.currency_id = ta.currency_id ∧ 0 < req.amount_minor ∧
      0 ≤ fa.balance_minor - req.amount_minor + fa.overdraft_limit_minor) := by
  unfold admission
  by_cases h1 : fa.status = .ACTIVE ∧ ta.status = .ACTIVE <;>
    by_cases h2 : fa.currency_id = ta.currency_id <;>
      by_cases h3 : 0 < req.amount_minor <;>
        by_cases h4 :
            0 ≤ fa.balance_minor - req.amount_minor + fa.overdraft_limit_minor <;>
          simp [h1, h2, h3, h4]

/-- Signed effect of one proposed line (spec §4.2): `+amount` for CREDIT,
`-amount` for DEBIT. -/
def specDelta (l : LineSpec) : Int :=
  match l.direction with
  | .CREDIT => l.amount_minor
  | .DEBIT => -l.amount_minor

/-- Total DEBIT amount of the proposed lines touching one account. -/
def debitFor (ls : List LineSpec) (aid : Nat) : Int :=
  specDebit (ls.filter (fun l => l.account_id == aid))

/-- Total CREDIT amount of the proposed lines touching one account. -/
def creditFor (ls : List LineSpec) (aid : Nat) : Int :=
  specCredit (ls.filter (fun l => l.account_id == aid))

lemma sum_specDelta (ls : List LineSpec) :
    (ls.map specDelta).sum = specCredit ls - specDebit ls := by
  induction ls with
  | nil => simp [specCredit, specDebit]
  | cons l t ih =>
    cases hd : l.direction <;>
      simp [specCredit, specDebit, specDelta, List.filter_cons, hd] at * <;>
        omega

lemma sum_lineDelta (ls : List JournalEntryLine) :
    (ls.map lineDelta).sum = creditSum ls - debitSum ls := by
  induction ls with
  | nil => simp [creditSum, debitSum]
  | cons l t ih =>
    cases hd : l.direction <;>
      simp [creditSum, debitSum, lineDelta, List.filter_cons, hd] at * <;>
        omega

lemma mkLines_filter_account (eid : Nat) (ls : List LineSpec) (aid : Nat) :
    (mkLines eid ls).filter (fun l => l.account_id == aid) =
      mkLines eid (ls.filter (fun l => l.account_id == aid)) := by
  unfold mkLines
  rw [List.filter_map]
  rfl

lemma lineDelta_mkLines (eid : Nat) (ls : List LineSpec) :
    (mkLines eid ls).map lineDelta = ls.map specDelta := by
  unfold mkLines
  rw [List.map_map]
  apply List.map_congr_left
  intro l _
  cases h : l.direction <;> simp [lineDelta, specDelta, h]

lemma applyLines_id (ls : List JournalEntryLine) (a : Account) :
    (applyLines ls a).id = a.id := rfl

lemma applyLines_balance (eid : Nat) (ls : List LineSpec) (a : Account) :
    (applyLines (mkLines eid ls) a).balance_minor =
      a.balance_minor + (creditFor ls a.id - debitFor ls a.id) := by
  show a.balance_minor + _ = _
  rw [mkLines_filter_account, lineDelta_mkLines, sum_specDelta]
  rfl

lemma post_of_precond {s : LedgerState} {et : EntryType} {ls : List LineSpec}
    {ref : Option String} (h : postPrecond s ls = true) :
    post s et ls ref = some (s.nextEntryId, postedState s et ls ref) := by
  simp [post, h]

lemma post_of_not_precond {s : LedgerState} {et : EntryType} {ls : List LineSpec}
    {ref : Option String} (h : postPrecond s ls = false) :
    post s et ls ref = none := by
  simp [post, h]

lemma post_some_elim {s s₁ : LedgerState} {et : EntryType} {ls : List LineSpec}
    {ref : Option String} {eid : Nat}
    (h : post s et ls ref = some (eid, s₁)) :
    postPrecond s ls = true ∧ eid = s.nextEntryId ∧ s₁ = postedState s et ls ref := by
  unfold post at h
  split at h
  · cases h
    exact ⟨by assumption, rfl, rfl⟩
  · cases h

/-- C7: when the Journal Posting Engine's precondition holds (balanced line
set over existing writable accounts), `post` commits, in a single state
transition, the POSTED `JournalEntry`, all its lines, and every affected
account's balance updated by CREDIT amounts minus DEBIT amounts of that
account's lines; when it does not hold, `post` changes nothing.  The model's
states change only atomically, so no partial posting is observable. -/
theorem posting_all_or_nothing (s : LedgerState) (et : EntryType)
    (ls : List LineSpec) (ref : Option String) :
    (postPrecond s ls = true →
      ∃ s₁, post s et ls ref = some (s.nextEntryId, s₁) ∧
        s₁.entries = { id := s.nextEntryId, entry_type := et,
                       status := EntryStatus.POSTED,
                       external_reference := ref } :: s.entries ∧
        s₁.lines = mkLines s.nextEntryId ls ++ s.lines ∧
        s₁.transfers = s.transfers ∧
        s₁.accounts.map Account.id = s.accounts.map Account.id ∧
        ∀ a ∈ s.accounts, ∃ a' ∈ s₁.accounts, a'.id = a.id ∧
          a'.balance_minor =
            a.balance_minor + (creditFor ls a.id - debitFor ls a.id)) ∧
    (postPrecond s ls = false → post s et ls ref = none) := by
  constructor
  · intro h
    refine ⟨postedState s et ls ref, post_of_precond h, rfl, rfl, rfl, ?_, ?_⟩
    · show (s.accounts.map _).map _ = _
      rw [List.map_map]
      rfl
    · intro a ha
      exact ⟨applyLines (mkLines s.nextEntryId ls) a,
        List.mem_map_of_mem _ ha, applyLines_id _ _, applyLines_balance _ _ _⟩
  · exact post_of_not_precond

lemma findAccount_some {s : LedgerState} {aid : Nat} {a : Account}
    (h : findAccount s aid = some a) : a ∈ s.accounts ∧ a.id = aid := by
  unfold findAccount at h
  refine ⟨List.mem_of_find?_eq_some h, ?_⟩
  have := List.find?_some h
  simpa using this

lemma specDebit_transferLines (req : TransferRequest) :
    specDebit (transferLines req) = req.amount_minor := by
  show req.amount_minor + 0 = req.amount_minor
  omega

lemma specCredit_transferLines (req : TransferRequest) :
    specCredit (transferLines req) = req.amount_minor := by
  show req.amount_minor + 0 = req.amount_minor
  omega

lemma postPrecond_transfer {req : TransferRequest} {s : LedgerState}
    {fa ta : Account}
    (hfa : findAccount s req.from_account_id = some fa)
    (hta : findAccount s req.to_account_id = some ta)
    (hadm : admission req fa ta = none) :
    postPrecond s (transferLines req) = true := by
  obtain ⟨⟨hfas, htas⟩, _, hpos, _⟩ := (admission_eq_none req fa ta).1 hadm
  unfold postPrecond
  rw [specDebit_transferLines, specCredit_transferLines]
  simp [transferLines, hfa, hta, hfas, htas, hpos]

lemma executeFresh_elim (req : TransferRequest) (s : LedgerState) :
    (∃ reason, executeFresh req s =
       .ok (resolveFailed s (intakeTransfer req s) reason)) ∨
    (∃ fa ta s₁,
       req.from_account_id ≠ req.to_account_id ∧
       findAccount s req.from_account_id = some fa ∧
       findAccount s req.to_account_id = some ta ∧
       admission req fa ta = none ∧
       post s .TRANSFER (transferLines req) req.external_reference =
         some (s.nextEntryId, s₁) ∧
       executeFresh req s =
         .ok (resolveExecuted s₁ (intakeTransfer req s) s.nextEntryId)) := by
  unfold executeFresh
  split
  · exact .inl ⟨_, rfl⟩
  · rename_i hne
    split
    · rename_i fa ta hfa hta
      cases hadm : admission req fa ta with
      | some reason => exact .inl ⟨reason, rfl⟩
      | none =>
        have hpre := postPrecond_transfer hfa hta hadm
        refine .inr ⟨fa, ta, postedState s .TRANSFER (transferLines req)
          req.external_reference, by simpa using hne, hfa, hta, hadm,
          post_of_precond hpre, ?_⟩
        show (match post s EntryType.TRANSFER (transferLines req)
            req.external_reference with
          | some (eid, s₁) => Except.ok (resolveExecuted s₁ (intakeTransfer req s) eid)
          | none => Except.error StorageFailure.STORAGE_FAILURE) = _
        rw [post_of_precond hpre]
    · exact .inl ⟨_, rfl⟩

lemma execute_elim (req : TransferRequest) (s : LedgerState) :
    (∃ r t, req.external_reference = some r ∧ findByRef s r = some t ∧
       execute req s = .ok (t, s)) ∨
    (execute req s = executeFresh req s) := by
  unfold execute
  split
  · rename_i r href
    split
    · rename_i t hf
      exact .inl ⟨r, t, href, hf, rfl⟩
    · exact .inr rfl
  · exact .inr rfl

lemma postPrecond_balanced {s : LedgerState} {ls : List LineSpec}
    (h : postPrecond s ls = true) : specDebit ls = specCredit ls := by
  unfold postPrecond at h
  simp only [Bool.and_eq_true, beq_iff_eq] at h
  exact h.1.1

lemma postPrecond_accounts {s : LedgerState} {ls : List LineSpec}
    (h : postPrecond s ls = true) :
    ∀ l ∈ ls, ∃ a, findAccount s l.account_id = some a ∧ a.status = .ACTIVE := by
  unfold postPrecond at h
  simp only [Bool.and_eq_true, List.all_eq_true] at h
  intro l hl
  have := h.2 l hl
  rcases hfind : findAccount s l.account_id with _ | a
  · rw [hfind] at this
    simp at this
  · rw [hfind] at this
    refine ⟨a, rfl, ?_⟩
    simpa using this.2

lemma debitSum_mkLines (eid : Nat) (ls : List LineSpec) :
    debitSum (mkLines eid ls) = specDebit ls := by
  unfold debitSum specDebit mkLines
  rw [List.filter_map, List.map_map]
  rfl

lemma creditSum_mkLines (eid : Nat) (ls : List LineSpec) :
    creditSum (mkLines eid ls) = specCredit ls := by
  unfold creditSum specCredit mkLines
  rw [List.filter_map, List.map_map]
  rfl

lemma debitSum_append (xs ys : List JournalEntryLine) :
    debitSum (xs ++ ys) = debitSum xs + debitSum ys := by
  unfold debitSum
  rw [List.filter_append, List.map_append, List.sum_append]

lemma creditSum_append (xs ys : List JournalEntryLine) :
    creditSum (xs ++ ys) = creditSum xs + creditSum ys := by
  unfold creditSum
  rw [List.filter_append, List.map_append, List.sum_append]

lemma mkLines_entry_id {eid : Nat} {ls : List LineSpec} :
    ∀ l ∈ mkLines eid ls, l.entry_id = eid := by
  intro l hl
  obtain ⟨x, _, rfl⟩ := List.mem_map.1 hl
  rfl

lemma mkLines_account_id {eid : Nat} {ls : List LineSpec} :
    ∀ l ∈ mkLines eid ls, ∃ x ∈ ls, l.account_id = x.account_id := by
  intro l hl
  obtain ⟨x, hx, rfl⟩ := List.mem_map.1 hl
  exact ⟨x, hx, rfl⟩

lemma entryLines_postedState_old {s : LedgerState} {et : EntryType}
    {ls : List LineSpec} {ref : Option String} {eid : Nat}
    (hlt : eid < s.nextEntryId) :
    entryLines (postedState s et ls ref) eid = entryLines s eid := by
  unfold entryLines postedState
  show ((mkLines s.nextEntryId ls ++ s.lines).filter _) = _
  rw [List.filter_append]
  have h1 : (mkLines s.nextEntryId ls).filter (fun l => l.entry_id == eid) = [] := by
    rw [List.filter_eq_nil_iff]
    intro l hl
    have := mkLines_entry_id l hl
    simp [this]
    omega
  rw [h1, List.nil_append]

lemma entryLines_postedState_new {s : LedgerState} {et : EntryType}
    {ls : List LineSpec} {ref : Option String}
    (hl : ∀ l ∈ s.lines, l.entry_id < s.nextEntryId) :
    entryLines (postedState s et ls ref) s.nextEntryId =
      mkLines s.nextEntryId ls := by
  unfold entryLines postedState
  show ((mkLines s.nextEntryId ls ++ s.lines).filter _) = _
  rw [List.filter_append]
  have h1 : (mkLines s.nextEntryId ls).filter
      (fun l => l.entry_id == s.nextEntryId) = mkLines s.nextEntryId ls := by
    rw [List.filter_eq_self]
    intro l hml
    simp [mkLines_entry_id l hml]
  have h2 : s.lines.filter (fun l => l.entry_id == s.nextEntryId) = [] := by
    rw [List.filter_eq_nil_iff]
    intro l hml
    have := hl l hml
    simp
    omega
  rw [h1, h2, List.append_nil]

lemma conservation_postedState {s : LedgerState} {et : EntryType}
    {ls : List LineSpec} {ref : Option String}
    (hwf : WF s) (hc : Conservation s) (hbal : specDebit ls = specCredit ls) :
    Conservation (postedState s et ls ref) := by
  intro e he hst
  rcases List.mem_cons.1 he with rfl | he'
  · show debitSum (entryLines _ s.nextEntryId) = creditSum (entryLines _ s.nextEntryId)
    rw [entryLines_postedState_new hwf.2.1, debitSum_mkLines, creditSum_mkLines]
    exact hbal
  · have hlt := hwf.1 e he'
    rw [entryLines_postedState_old hlt]
    exact hc e he' hst

lemma entryPosted_postedState_old {s : LedgerState} {et : EntryType}
    {ls : List LineSpec} {ref : Option String} {eid : Nat}
    (hlt : eid < s.nextEntryId) :
    entryPosted (postedState s et ls ref) eid = entryPosted s eid := by
  unfold entryPosted postedState
  rw [List.find?_cons_of_neg]
  simp
  omega

lemma entryPosted_postedState_new {s : LedgerState} {et : EntryType}
    {ls : List LineSpec} {ref : Option String} :
    entryPosted (postedState s et ls ref) s.nextEntryId = true := by
  unfold entryPosted postedState
  rw [List.find?_cons_of_pos]
  · rfl
  · simp

lemma postedFor_postedState {s : LedgerState} {et : EntryType}
    {ls : List LineSpec} {ref : Option String}
    (hl : ∀ l ∈ s.lines, l.entry_id < s.nextEntryId) (aid : Nat) :
    postedFor (postedState s et ls ref) aid =
      mkLines s.nextEntryId (ls.filter (fun l => l.account_id == aid)) ++
        postedFor s aid := by
  unfold postedFor
  show ((mkLines s.nextEntryId ls ++ s.lines).filter _) = _
  rw [List.filter_append]
  have h1 : (mkLines s.nextEntryId ls).filter
      (fun l => l.account_id == aid && entryPosted (postedState s et ls ref) l.entry_id) =
      (mkLines s.nextEntryId ls).filter (fun l => l.account_id == aid) := by
    apply List.filter_congr
    intro l hml
    rw [mkLines_entry_id l hml, entryPosted_postedState_new, Bool.and_true]
  have h2 : s.lines.filter
      (fun l => l.account_id == aid && entryPosted (postedState s et ls ref) l.entry_id) =
      s.lines.filter (fun l => l.account_id == aid && entryPosted s l.entry_id) := by
    apply List.filter_congr
    intro l hml
    rw [entryPosted_postedState_old (hl l hml)]
  rw [h1, h2, mkLines_filter_account]

lemma derivation_postedState {s : LedgerState} {et : EntryType}
    {ls : List LineSpec} {ref : Option String}
    (hwf : WF s) (hd : Derivation s) :
    Derivation (postedState s et ls ref) := by
  intro a' ha'
  obtain ⟨a, ha, rfl⟩ := List.mem_map.1 ha'
  rw [applyLines_id]
  rw [postedFor_postedState hwf.2.1 a.id]
  rw [creditSum_append, debitSum_append, creditSum_mkLines, debitSum_mkLines]
  rw [applyLines_balance]
  have := hd a ha
  unfold creditFor debitFor
  omega

lemma findAccount_unique {s : LedgerState} {a b : Account}
    (hnd : (s.accounts.map Account.id).Nodup)
    (ha : a ∈ s.accounts) (hfb : findAccount s a.id = some b) : a = b := by
  obtain ⟨hb, hbid⟩ := findAccount_some hfb
  exact List.inj_on_of_nodup_map hnd ha hb (by rw [hbid])

lemma creditFor_transferLines_from {req : TransferRequest}
    (hne : req.from_account_id ≠ req.to_account_id) :
    creditFor (transferLines req) req.from_account_id = 0 := by
  unfold creditFor transferLines specCredit
  simp [List.filter_cons, Ne.symm hne]

lemma debitFor_transferLines_from {req : TransferRequest}
    (hne : req.from_account_id ≠ req.to_account_id) :
    debitFor (transferLines req) req.from_account_id = req.amount_minor := by
  unfold debitFor transferLines specDebit
  simp [List.filter_cons, Ne.symm hne]

lemma creditFor_transferLines_to {req : TransferRequest}
    (hne : req.from_account_id ≠ req.to_account_id) :
    creditFor (transferLines req) req.to_account_id = req.amount_minor := by
  unfold creditFor transferLines specCredit
  simp [List.filter_cons, hne]

lemma debitFor_transferLines_to {req : TransferRequest}
    (hne : req.from_account_id ≠ req.to_account_id) :
    debitFor (transferLines req) req.to_account_id = 0 := by
  unfold debitFor transferLines specDebit
  simp [List.filter_cons, hne]

lemma creditFor_transferLines_other {req : TransferRequest} {aid : Nat}
    (h1 : aid ≠ req.from_account_id) (h2 : aid ≠ req.to_account_id) :
    creditFor (transferLines req) aid = 0 := by
  unfold creditFor transferLines specCredit
  simp [List.filter_cons, Ne.symm h1, Ne.symm h2]

lemma debitFor_transferLines_other {req : TransferRequest} {aid : Nat}
    (h1 : aid ≠ req.from_account_id) (h2 : aid ≠ req.to_account_id) :
    debitFor (transferLines req) aid = 0 := by
  unfold debitFor transferLines specDebit
  simp [List.filter_cons, Ne.symm h1, Ne.symm h2]

lemma nonneg_transfer_post {req : TransferRequest} {fa ta : Account}
    {s : LedgerState}
    (hwf : WF s) (hnn : NonNeg s)
    (hne : req.from_account_id ≠ req.to_account_id)
    (hfa : findAccount s req.from_account_id = some fa)
    (hadm : admission req fa ta = none) :
    NonNeg (postedState s .TRANSFER (transferLines req)
      req.external_reference) := by
  obtain ⟨_, _, hpos, hover⟩ := (admission_eq_none req fa ta).1 hadm
  intro a' ha'
  obtain ⟨a, ha, rfl⟩ := List.mem_map.1 ha'
  show 0 ≤ (applyLines _ a).balance_minor + a.overdraft_limit_minor
  rw [applyLines_balance]
  by_cases h1 : a.id = req.from_account_id
  · have heq : a = fa := findAccount_unique hwf.2.2.2.1 ha (by rw [h1]; exact hfa)
    rw [h1, creditFor_transferLines_from hne, debitFor_transferLines_from hne]
    rw [heq]
    omega
  · by_cases h2 : a.id = req.to_account_id
    · rw [h2, creditFor_transferLines_to hne, debitFor_transferLines_to hne]
      have := hnn a ha
      omega
    · rw [creditFor_transferLines_other h1 h2, debitFor_transferLines_other h1 h2]
      have := hnn a ha
      omega

lemma wf_postedState {s : LedgerState} {et : EntryType} {ls : List LineSpec}
    {ref : Option String} (hwf : WF s) (hpre : postPrecond s ls = true) :
    WF (postedState s et ls ref) := by
  obtain ⟨h1, h2, h3, h4, h5, h6, h7⟩ := hwf
  refine ⟨?_, ?_, h3, ?_, h5, h6, ?_⟩
  · intro e he
    rcases List.mem_cons.1 he with rfl | he'
    · show s.nextEntryId < s.nextEntryId + 1
      omega
    · have := h1 e he'
      show e.id < s.nextEntryId + 1
      omega
  · intro l hl
    rcases List.mem_append.1 hl with hl' | hl'
    · rw [mkLines_entry_id l hl']
      show s.nextEntryId < s.nextEntryId + 1
      omega
    · have := h2 l hl'
      show l.entry_id < s.nextEntryId + 1
      omega
  · show ((s.accounts.map _).map Account.id).Nodup
    rw [List.map_map]
    exact h4
  · intro l hl
    rcases List.mem_append.1 hl with hl' | hl'
    · obtain ⟨x, hx, hacc⟩ := mkLines_account_id l hl'
      obtain ⟨a, hfind, _⟩ := postPrecond_accounts hpre x hx
      obtain ⟨hmem, hid⟩ := findAccount_some hfind
      exact ⟨applyLines (mkLines s.nextEntryId ls) a,
        List.mem_map_of_mem _ hmem, by rw [applyLines_id, hid, hacc]⟩
    · obtain ⟨a, hmem, hid⟩ := h7 l hl'
      exact ⟨applyLines (mkLines s.nextEntryId ls) a,
        List.mem_map_of_mem _ hmem, by rw [applyLines_id, hid]⟩

lemma wf_addTransfer {s : LedgerState} {t : Transfer}
    (hwf : WF s) (hid : t.id = s.nextTransferId)
    (hterm : isTerminal t.status = true)
    (hfr : t.status = .FAILED → t.failure_reason.isSome = true)
    (hje : t.status = .EXECUTED → t.journal_entry_id.isSome = true) :
    WF { s with transfers := t :: s.transfers,
                nextTransferId := s.nextTransferId + 1 } := by
  obtain ⟨h1, h2, h3, h4, h5, h6, h7⟩ := hwf
  refine ⟨h1, h2, ?_, h4, ?_, ?_, h7⟩
  · intro u hu
    rcases List.mem_cons.1 hu with rfl | hu'
    · show u.id < s.nextTransferId + 1
      omega
    · have := h3 u hu'
      show u.id < s.nextTransferId + 1
      omega
  · show (t.id :: s.transfers.map Transfer.id).Nodup
    rw [List.nodup_cons]
    refine ⟨?_, h5⟩
    intro hmem
    obtain ⟨u, hu, huid⟩ := List.mem_map.1 hmem
    have := h3 u hu
    omega
  · intro u hu
    rcases List.mem_cons.1 hu with rfl | hu'
    · exact ⟨hterm, hfr, hje⟩
    · exact h6 u hu'

lemma inv_init :
    WF initState ∧ Conservation initState ∧ NonNeg initState ∧
      Derivation initState := by
  refine ⟨?_, ?_, ?_, ?_⟩ <;> simp [WF, Conservation, NonNeg, Derivation, initState]

lemma inv_step (op : Op) (s : LedgerState)
    (h : WF s ∧ Conservation s ∧ NonNeg s ∧ Derivation s) :
    WF (applyOp op s) ∧ Conservation (applyOp op s) ∧ NonNeg (applyOp op s) ∧
      Derivation (applyOp op s) := by
  obtain ⟨hwf, hc, hnn, hd⟩ := h
  cases op with
  | createAccount aid cur st od =>
    by_cases hg : 0 ≤ od ∧ findAccount s aid = none
    · have happ : applyOp (Op.createAccount aid cur st od) s =
          { s with accounts :=
              { id := aid, currency_id := cur, status := st, balance_minor := 0,
                overdraft_limit_minor := od } :: s.accounts } := by
        show (if 0 ≤ od ∧ findAccount s aid = none then _ else s) = _
        rw [if_pos hg]
      rw [happ]
      obtain ⟨hod, hfind⟩ := hg
      have hfresh : ∀ a ∈ s.accounts, a.id ≠ aid := by
        intro a ha
        have := (List.find?_eq_none.1 hfind) a ha
        simpa using this
      obtain ⟨h1, h2, h3, h4, h5, h6, h7⟩ := hwf
      refine ⟨⟨h1, h2, h3, ?_, h5, h6, ?_⟩, hc, ?_, ?_⟩
      · show (aid :: s.accounts.map Account.id).Nodup
        rw [List.nodup_cons]
        refine ⟨?_, h4⟩
        intro hmem
        obtain ⟨a, ha, haid⟩ := List.mem_map.1 hmem
        exact hfresh a ha haid
      · intro l hl
        obtain ⟨a, ha, hidl⟩ := h7 l hl
        exact ⟨a, List.mem_cons_of_mem _ ha, hidl⟩
      · intro a ha
        rcases List.mem_cons.1 ha with rfl | ha'
        · show (0:Int) ≤ 0 + od
          omega
        · exact hnn a ha'
      · intro a ha
        rcases List.mem_cons.1 ha with rfl | ha'
        · show (0:Int) = creditSum (postedFor s aid) - debitSum (postedFor s aid)
          have hp : postedFor s aid = [] := by
            unfold postedFor
            rw [List.filter_eq_nil_iff]
            intro l hl hcond
            simp only [Bool.and_eq_true, beq_iff_eq] at hcond
            obtain ⟨a, ha, hidl⟩ := h7 l hl
            exact hfresh a ha (by rw [hidl, hcond.1])
          rw [hp]
          rfl
        · exact hd a ha'
    · have happ : applyOp (Op.createAccount aid cur st od) s = s := by
        show (if 0 ≤ od ∧ findAccount s aid = none then _ else s) = s
        rw [if_neg hg]
      rw [happ]
      exact ⟨hwf, hc, hnn, hd⟩
  | setStatus aid st =>
    unfold applyOp
    have hid : ∀ a : Account,
        ((fun a => if a.id = aid then { a with status := st } else a) a).id = a.id := by
      intro a
      by_cases h : a.id = aid <;> simp [h]
    have hbal : ∀ a : Account,
        ((fun a => if a.id = aid then { a with status := st } else a) a).balance_minor =
          a.balance_minor := by
      intro a
      by_cases h : a.id = aid <;> simp [h]
    have hov : ∀ a : Account,
        ((fun a => if a.id = aid then { a with status := st } else a) a).overdraft_limit_minor =
          a.overdraft_limit_minor := by
      intro a
      by_cases h : a.id = aid <;> simp [h]
    obtain ⟨h1, h2, h3, h4, h5, h6, h7⟩ := hwf
    refine ⟨⟨h1, h2, h3, ?_, h5, h6, ?_⟩, hc, ?_, ?_⟩
    · show ((s.accounts.map _).map Account.id).Nodup
      rw [List.map_map]
      have heq : s.accounts.map
          (Account.id ∘ fun a => if a.id = aid then { a with status := st } else a) =
          s.accounts.map Account.id :=
        List.map_congr_left (fun a _ => hid a)
      rw [heq]
      exact h4
    · intro l hl
      obtain ⟨a, ha, hidl⟩ := h7 l hl
      exact ⟨_, List.mem_map_of_mem _ ha, by rw [hid a, hidl]⟩
    · intro a' ha'
      obtain ⟨a, ha, rfl⟩ := List.mem_map.1 ha'
      rw [hbal a, hov a]
      exact hnn a ha
    · intro a' ha'
      obtain ⟨a, ha, rfl⟩ := List.mem_map.1 ha'
      rw [hbal a, hid a]
      exact hd a ha
  | transfer req =>
    show WF (stateAfter req s) ∧ Conservation (stateAfter req s) ∧
      NonNeg (stateAfter req s) ∧ Derivation (stateAfter req s)
    rcases execute_elim req s with ⟨r, t, href, hfind, hex⟩ | hex
    · have hst : stateAfter req s = s := by
        unfold stateAfter
        rw [hex]
      rw [hst]
      exact ⟨hwf, hc, hnn, hd⟩
    · rcases executeFresh_elim req s with ⟨reason, hf⟩ |
        ⟨fa, ta, s₁, hne, hfa, hta, hadm, hpost, hf⟩
      · have hst : stateAfter req s =
            (resolveFailed s (intakeTransfer req s) reason).2 := by
          unfold stateAfter
          rw [hex, hf]
        rw [hst]
        exact ⟨wf_addTransfer hwf rfl rfl (fun _ => rfl) (fun h => nomatch h),
          hc, hnn, hd⟩
      · obtain ⟨hpre, -, hs₁⟩ := post_some_elim hpost
        subst hs₁
        have hst : stateAfter req s =
            (resolveExecuted
              (postedState s .TRANSFER (transferLines req) req.external_reference)
              (intakeTransfer req s) s.nextEntryId).2 := by
          unfold stateAfter
          rw [hex, hf]
        rw [hst]
        exact ⟨wf_addTransfer (wf_postedState hwf hpre) rfl rfl
            (fun h => nomatch h) (fun _ => rfl),
          conservation_postedState hwf hc (postPrecond_balanced hpre),
          nonneg_transfer_post hwf hnn hne hfa hadm,
          derivation_postedState hwf hd⟩

lemma reachable_all {s : LedgerState} (h : Reachable s) :
    WF s ∧ Conservation s ∧ NonNeg s ∧ Derivation s := by
  induction h with
  | init => exact inv_init
  | step op _ ih => exact inv_step op _ ih

lemma execute_of_findByRef {req : TransferRequest} {s : LedgerState}
    {r : String} {t : Transfer}
    (hr : req.external_reference = some r) (hf : findByRef s r = some t) :
    execute req s = .ok (t, s) := by
  unfold execute
  rw [hr]
  show (match findByRef s r with
    | some t0 => Except.ok (t0, s)
    | none => executeFresh req s) = Except.ok (t, s)
  rw [hf]

lemma executeFresh_ok_shape (req : TransferRequest) (s s₁ : LedgerState)
    (t : Transfer) (h : executeFresh req s = .ok (t, s₁)) :
    s₁.transfers = t :: s.transfers ∧
    t.external_reference = req.external_reference ∧
    isTerminal t.status = true ∧
    (t.status = .FAILED → t.failure_reason.isSome = true) ∧
    (t.status = .EXECUTED → t.journal_entry_id.isSome = true) ∧
    t.id = s.nextTransferId := by
  rcases executeFresh_elim req s with ⟨reason, hf⟩ |
    ⟨fa, ta, s₂, hne, hfa, hta, hadm, hpost, hf⟩
  · rw [hf] at h
    simp only [Except.ok.injEq] at h
    have h1 := congrArg Prod.fst h
    have h2 := congrArg Prod.snd h
    simp only at h1 h2
    subst h1
    subst h2
    refine ⟨rfl, rfl, rfl, fun _ => rfl, ?_, rfl⟩
    intro hx
    simp [resolveFailed] at hx
  · obtain ⟨-, -, hs₂⟩ := post_some_elim hpost
    subst hs₂
    rw [hf] at h
    simp only [Except.ok.injEq] at h
    have h1 := congrArg Prod.fst h
    have h2 := congrArg Prod.snd h
    simp only at h1 h2
    subst h1
    subst h2
    refine ⟨rfl, rfl, rfl, ?_, fun _ => rfl, rfl⟩
    intro hx
    simp [resolveExecuted] at hx

lemma applyOp_transfers (op : Op) (s : LedgerState) :
    (applyOp op s).transfers = s.transfers ∨
    ∃ u : Transfer, u.id = s.nextTransferId ∧
      (applyOp op s).transfers = u :: s.transfers := by
  cases op with
  | createAccount aid cur st od =>
    left
    show (if 0 ≤ od ∧ findAccount s aid = none then _ else s).transfers = s.transfers
    split <;> rfl
  | setStatus aid st => exact .inl rfl
  | transfer req =>
    rcases execute_elim req s with ⟨r, t, href, hfind, hex⟩ | hex
    · left
      show (stateAfter req s).transfers = s.transfers
      unfold stateAfter
      rw [hex]
    · rcases hok : executeFresh req s with e | p
      · left
        show (stateAfter req s).transfers = s.transfers
        unfold stateAfter
        rw [hex, hok]
      · obtain ⟨t, s₁⟩ := p
        obtain ⟨htr, -, -, -, -, hid⟩ := executeFresh_ok_shape req s s₁ t hok
        right
        refine ⟨t, hid, ?_⟩
        show (stateAfter req s).transfers = t :: s.transfers
        unfold stateAfter
        rw [hex, hok, htr]

/-- C1: for every reachable ledger state — i.e. after every sequence of
system operations starting from the empty ledger — every POSTED journal
entry's DEBIT line amounts sum to the same total as its CREDIT line amounts
(conservation of money). -/
theorem conservation_invariant (s : LedgerState) (hs : Reachable s) :
    Conservation s :=
  (reachable_all hs).2.1

/-- C2: for every reachable ledger state — after every operation that can
mutate an account — every account satisfies
`balance_minor + overdraft_limit_minor >= 0`; no posting violates it. -/
theorem nonneg_invariant (s : LedgerState) (hs : Reachable s) :
    NonNeg s :=
  (reachable_all hs).2.2.1

/-- C3: for every reachable ledger state, every account's stored
`balance_minor` equals the sum of CREDIT line amounts minus the sum of
DEBIT line amounts over the journal lines referencing it whose parent entry
is POSTED: the stored balance never drifts from the derived balance. -/
theorem derivation_invariant (s : LedgerState) (hs : Reachable s) :
    Derivation s :=
  (reachable_all hs).2.2.2

/-- C4: a transfer that reached a terminal state (EXECUTED or FAILED) is
never changed by any subsequent operation: it is still stored afterwards,
and it is the only stored transfer with its id, so its status and
journal_entry_id are unchanged. -/
theorem terminal_finality (op : Op) (s : LedgerState) (t : Transfer)
    (hs : Reachable s) (ht : t ∈ s.transfers)
    (hterm : isTerminal t.status = true) :
    t ∈ (applyOp op s).transfers ∧
      ∀ t' ∈ (applyOp op s).transfers, t'.id = t.id → t' = t := by
  obtain ⟨hwf, -, -, -⟩ := reachable_all hs
  rcases applyOp_transfers op s with heq | ⟨u, huid, heq⟩
  · rw [heq]
    refine ⟨ht, ?_⟩
    intro t' ht' hid
    exact List.inj_on_of_nodup_map hwf.2.2.2.2.1 ht' ht (by rw [hid])
  · rw [heq]
    refine ⟨List.mem_cons_of_mem _ ht, ?_⟩
    intro t' ht' hid
    rcases List.mem_cons.1 ht' with rfl | ht''
    · exfalso
      have := hwf.2.2.1 t ht
      omega
    · exact List.inj_on_of_nodup_map hwf.2.2.2.2.1 ht'' ht (by rw [hid])

/-- C6: replaying an `execute` call that carried an external reference
returns the very same transfer and leaves the ledger state identical —
the same journal entries, lines and balances — so the financial effect is
applied at most once per external reference. -/
theorem idempotent_replay (req : TransferRequest) (s s₁ : LedgerState)
    (t : Transfer) (r : String)
    (hex : execute req s = .ok (t, s₁))
    (hr : req.external_reference = some r) :
    execute req s₁ = .ok (t, s₁) := by
  rcases execute_elim req s with ⟨r', t', href, hfind, hex'⟩ | hex'
  · rw [hex'] at hex
    simp only [Except.ok.injEq, Prod.mk.injEq] at hex
    obtain ⟨rfl, rfl⟩ := hex
    have hrr : r' = r := by
      rw [hr] at href
      exact (Option.some.inj href).symm
    subst hrr
    exact execute_of_findByRef hr hfind
  · rw [hex'] at hex
    obtain ⟨htr, href, hterm, -, -, -⟩ := executeFresh_ok_shape req s s₁ t hex
    apply execute_of_findByRef hr
    unfold findByRef
    rw [htr]
    have hp : (t.external_reference == some r && isTerminal t.status) = true := by
      rw [href, hr, hterm]
      simp
    exact List.find?_cons_of_pos _ hp

/-- C8: `execute` never raises a business-rule rejection to the caller: on
every request and every reachable state it returns a normal result — a
terminal transfer, and when that transfer is FAILED its failure_reason is
populated.  (The model has no clock, so TIMEOUT is never produced; it is
covered vacuously.) -/
theorem rejections_recovered (req : TransferRequest) (s : LedgerState)
    (hs : Reachable s) :
    ∃ t s₁, execute req s = .ok (t, s₁) ∧ isTerminal t.status = true ∧
      (t.status = .FAILED → ∃ reason, t.failure_reason = some reason) := by
  obtain ⟨hwf, -, -, -⟩ := reachable_all hs
  rcases execute_elim req s with ⟨r, t, href, hfind, hex⟩ | hex
  · unfold findByRef at hfind
    have hmem := List.mem_of_find?_eq_some hfind
    have hp := List.find?_some hfind
    simp only [Bool.and_eq_true] at hp
    refine ⟨t, s, hex, hp.2, ?_⟩
    intro hfail
    have := (hwf.2.2.2.2.2.1 t hmem).2.1 hfail
    exact Option.isSome_iff_exists.1 this
  · rcases executeFresh_elim req s with ⟨reason, hf⟩ |
      ⟨fa, ta, s₂, hne, hfa, hta, hadm, hpost, hf⟩
    · refine ⟨(resolveFailed s (intakeTransfer req s) reason).1,
        (resolveFailed s (intakeTransfer req s) reason).2, ?_, rfl,
        fun _ => ⟨reason, rfl⟩⟩
      rw [hex, hf]
    · refine ⟨(resolveExecuted s₂ (intakeTransfer req s) s.nextEntryId).1,
        (resolveExecuted s₂ (intakeTransfer req s) s.nextEntryId).2, ?_, rfl, ?_⟩
      · rw [hex, hf]
      · intro hx
        simp [resolveExecuted] at hx

/-- Demo request: transfer 3000 minor units from account 1 to account 2
(spec §8, example scenario 1). -/
def demoReq : TransferRequest :=
  { from_account_id := 1, to_account_id := 2, amount_minor := 3000,
    external_reference := none }

/-- Demo ledger: two active accounts created administratively, then one
executed transfer. -/
def demoState : LedgerState :=
  applyOp (.transfer demoReq)
    (applyOp (.createAccount 2 1 .ACTIVE 0)
      (applyOp (.createAccount 1 1 .ACTIVE 5000) initState))

lemma demoState_reachable : Reachable demoState :=
  .step _ (.step _ (.step _ .init))

/-- The transfer record the demo ledger holds. -/
def demoTransfer : Transfer :=
  { id := 0, from_account_id := 1, to_account_id := 2, amount_minor := 3000,
    status := .EXECUTED, failure_reason := none, journal_entry_id := some 0,
    external_reference := none }

theorem conservation_invariant_witness : Conservation demoState :=
  conservation_invariant demoState demoState_reachable

theorem nonneg_invariant_witness : NonNeg demoState :=
  nonneg_invariant demoState demoState_reachable

theorem derivation_invariant_witness : Derivation demoState :=
  derivation_invariant demoState demoState_reachable

theorem terminal_finality_witness :
    demoTransfer ∈ (applyOp (.setStatus 1 .BLOCKED) demoState).transfers ∧
      ∀ t' ∈ (applyOp (.setStatus 1 .BLOCKED) demoState).transfers,
        t'.id = demoTransfer.id → t' = demoTransfer :=
  terminal_finality (.setStatus 1 .BLOCKED) demoState demoTransfer
    demoState_reachable (by decide) (by decide)

theorem rejections_recovered_witness :
    ∃ t s₁, execute demoReq demoState = .ok (t, s₁) ∧
      isTerminal t.status = true ∧
      (t.status = .FAILED → ∃ reason, t.failure_reason = some reason) :=
  rejections_recovered demoReq demoState demoState_reachable

/-- External reference used in the idempotency witness. -/
def wRef : String := "tx-1"

def wReq : TransferRequest :=
  { from_account_id := 1, to_account_id := 2, amount_minor := 3000,
    external_reference := some wRef }

def wState : LedgerState :=
  { accounts :=
      [ { id := 1, currency_id := 1, status := .ACTIVE, balance_minor := 10000,
          overdraft_limit_minor := 0 },
        { id := 2, currency_id := 1, status := .ACTIVE, balance_minor := 500,
          overdraft_limit_minor := 0 } ],
    entries := [], lines := [], transfers := [],
    nextEntryId := 0, nextTransferId := 0 }

def wTransfer : Transfer :=
  { id := 0, from_account_id := 1, to_account_id := 2, amount_minor := 3000,
    status := .EXECUTED, failure_reason := none, journal_entry_id := some 0,
    external_reference := some wRef }

/-- The ledger after executing `wReq` on `wState`. -/
def wState₁ : LedgerState :=
  { accounts :=
      [ { id := 1, currency_id := 1, status := .ACTIVE, balance_minor := 7000,
          overdraft_limit_minor := 0 },
        { id := 2, currency_id := 1, status := .ACTIVE, balance_minor := 3500,
          overdraft_limit_minor := 0 } ],
    entries := [ { id := 0, entry_type := .TRANSFER, status := .POSTED,
                   external_reference := some wRef } ],
    lines := [ { entry_id := 0, account_id := 1, direction := .DEBIT,
                 amount_minor := 3000 },
               { entry_id := 0, account_id := 2, direction := .CREDIT,
                 amount_minor := 3000 } ],
    transfers := [wTransfer], nextEntryId := 1, nextTransferId := 1 }

theorem idempotent_replay_witness :
    execute wReq wState₁ = .ok (wTransfer, wState₁) :=
  idempotent_replay wReq wState wState₁ wTransfer wRef rfl rfl

/-- Proposed lines used in the posting-engine witness. -/
def wLines : List LineSpec :=
  [ { account_id := 1, direction := .DEBIT, amount_minor := 2000 },
    { account_id := 2, direction := .CREDIT, amount_minor := 2000 } ]

theorem posting_all_or_nothing_witness :
    postPrecond wState wLines = true ∧
    (∃ s₁, post wState .TRANSFER wLines none = some (wState.nextEntryId, s₁) ∧
      s₁.entries = { id := wState.nextEntryId, entry_type := .TRANSFER,
                     status := EntryStatus.POSTED,
                     external_reference := none } :: wState.entries ∧
      s₁.lines = mkLines wState.nextEntryId wLines ++ wState.lines ∧
      s₁.transfers = wState.transfers ∧
      s₁.accounts.map Account.id = wState.accounts.map Account.id ∧
      ∀ a ∈ wState.accounts, ∃ a' ∈ s₁.accounts, a'.id = a.id ∧
        a'.balance_minor =
          a.balance_minor + (creditFor wLines a.id - debitFor wLines a.id)) :=
  ⟨by decide, (posting_all_or_nothing wState .TRANSFER wLines none).1 (by decide)⟩

/-- One in-flight transfer's lock state at the Concurrency Controller
(spec §5): the account locks it holds and the lock it currently waits for
(none when it is not blocked). -/
structure Proc where
  holds : List Nat
  wants : Option Nat
deriving DecidableEq, Repr

/-- Modelled from the spec: the fixed-total-order lock discipline (§5) — a
process only ever waits for a lock strictly greater than every lock it
already holds, which is what acquiring locks in ascending account-identifier
order enforces. -/
def OrderedAcq (p : Proc) : Bool :=
  match p.wants with
  | none => true
  | some w => p.holds.all (fun l => decide (l < w))

/-- A deadlocked set of processes: a nonempty subset of the running
processes in which every member waits for a lock held by some member of the
same subset — the circular wait that would make every member block
forever. -/
def Deadlocked (ps S : List Proc) : Prop :=
  S ≠ [] ∧ (∀ p ∈ S, p ∈ ps) ∧
    ∀ p ∈ S, ∃ w, p.wants = some w ∧ ∃ q ∈ S, w ∈ q.holds

/-- Lock states a transfer between accounts `a` and `b` passes through
under the spec's ordering rule: waiting for the lower-numbered account's
lock, holding it while waiting for the higher-numbered one, holding both. -/
def lockPhase1 (a b : Nat) : Proc := { holds := [], wants := some (min a b) }

def lockPhase2 (a b : Nat) : Proc :=
  { holds := [min a b], wants := some (max a b) }

def lockPhase3 (a b : Nat) : Proc :=
  { holds := [min a b, max a b], wants := none }

/-- A process whose lock state is a phase of some transfer between two
distinct accounts (self-transfers are rejected before lock acquisition,
spec §4.3). -/
def TransferPhase (p : Proc) : Prop :=
  ∃ a b : Nat, a ≠ b ∧
    (p = lockPhase1 a b ∨ p = lockPhase2 a b ∨ p = lockPhase3 a b)

lemma exists_max_mem (l : List Nat) (h : l ≠ []) :
    ∃ m ∈ l, ∀ x ∈ l, x ≤ m := by
  induction l with
  | nil => exact absurd rfl h
  | cons a t ih =>
    cases t with
    | nil =>
      refine ⟨a, List.mem_singleton_self a, ?_⟩
      intro x hx
      simp at hx
      omega
    | cons b u =>
      obtain ⟨m, hm, hmax⟩ := ih (by simp)
      by_cases hcmp : a ≤ m
      · refine ⟨m, List.mem_cons_of_mem _ hm, ?_⟩
        intro x hx
        rcases List.mem_cons.1 hx with rfl | hx'
        · exact hcmp
        · exact hmax x hx'
      · refine ⟨a, List.mem_cons_self a _, ?_⟩
        intro x hx
        rcases List.mem_cons.1 hx with rfl | hx'
        · omega
        · have := hmax x hx'
          omega

lemma ordered_no_deadlock (ps S : List Proc)
    (h : ∀ p ∈ ps, OrderedAcq p = true) : ¬ Deadlocked ps S := by
  rintro ⟨hne, hsub, hwait⟩
  have hws : S.filterMap Proc.wants ≠ [] := by
    obtain ⟨p, hp⟩ := List.exists_mem_of_ne_nil S hne
    obtain ⟨w, hw, -⟩ := hwait p hp
    intro hnil
    have hmem : w ∈ S.filterMap Proc.wants := List.mem_filterMap.2 ⟨p, hp, hw⟩
    rw [hnil] at hmem
    exact List.not_mem_nil w hmem
  obtain ⟨m, hm, hmax⟩ := exists_max_mem _ hws
  obtain ⟨p, hpS, hpw⟩ := List.mem_filterMap.1 hm
  obtain ⟨w, hw, q, hqS, hwq⟩ := hwait p hpS
  rw [hpw] at hw
  have hwm : m = w := Option.some.inj hw
  subst hwm
  obtain ⟨wq, hwq', -⟩ := hwait q hqS
  have hall : q.holds.all (fun l => decide (l < wq)) = true := by
    have hqord := h q (hsub q hqS)
    unfold OrderedAcq at hqord
    rw [hwq'] at hqord
    exact hqord
  have hlt : m < wq := by
    have := List.all_eq_true.1 hall m hwq
    simpa using this
  have hle : wq ≤ m := hmax wq (List.mem_filterMap.2 ⟨q, hqS, hwq'⟩)
  omega

lemma transferPhase_ordered {p : Proc} (h : TransferPhase p) :
    OrderedAcq p = true := by
  obtain ⟨a, b, hne, hp | hp | hp⟩ := h <;> subst hp
  · rfl
  · show List.all [min a b] (fun l => decide (l < max a b)) = true
    simp
    omega
  · rfl

/-- C9: no set of concurrent transfers can deadlock: each transfer acquires
its two account locks in ascending account-identifier order regardless of
transfer direction, so every process obeys the ordered-acquisition
discipline, and under that discipline no subset of processes can form the
circular wait a deadlock requires — hence no transfer blocks forever
waiting on a cycle. -/
theorem transfer_locks_no_deadlock (ps S : List Proc)
    (h : ∀ p ∈ ps, TransferPhase p) : ¬ Deadlocked ps S :=
  ordered_no_deadlock ps S (fun p hp => transferPhase_ordered (h p hp))

theorem transfer_locks_no_deadlock_witness :
    ¬ Deadlocked [lockPhase2 1 2, lockPhase2 2 1]
      [lockPhase2 1 2, lockPhase2 2 1] :=
  transfer_locks_no_deadlock _ _ (by
    intro p hp
    rcases List.mem_cons.1 hp with rfl | hp'
    · exact ⟨1, 2, by omega, .inr (.inl rfl)⟩
    · rcases List.mem_cons.1 hp' with rfl | hemp
      · exact ⟨2, 1, by omega, .inr (.inl rfl)⟩
      · exact absurd hemp (List.not_mem_nil _))

/-- Mapped attribute names of the `AccountHolder` declarative model
(models/user.py): its columns and relationship fields.  Note the model
defines `full_name` and no `first_name`/`last_name`. -/
def accountHolderAttributes : List String :=
  ["id", "user_id", "holder_type", "full_name", "date_of_birth",
   "national_id_number", "email", "phone_number", "address_line1",
   "address_line2", "city", "postal_code", "country_code", "kyc_status",
   "created_at", "updated_at", "user", "accounts"]

/-- Keyword arguments the signup endpoint passes to `AccountHolder(...)`
(api/v1/auth.py, the holder construction inside `signup`). -/
def signupHolderKwargs : List String :=
  ["user_id", "first_name", "last_name", "date_of_birth",
   "national_id_number", "phone_number", "email"]

/-- SQLAlchemy's default declarative constructor: every keyword argument
must name a mapped attribute of the model; the first unknown keyword raises
`TypeError` naming it. -/
def declarativeCtorCheck (attrs kwargs : List String) : Except String Unit :=
  match kwargs.find? (fun k => !(attrs.contains k)) with
  | some k => .error k
  | none => .ok ()

/-- Signup request payload, from schemas/user.py `AuthUserCreate`.  Dates
are carried as strings; no field's value affects the endpoint's control
flow except `email`. -/
structure AuthUserCreate where
  email : String
  password : String
  first_name : String
  last_name : String
  date_of_birth : String
  national_id_number : String
  phone_number : String
deriving DecidableEq, Repr

/-- Failure outcomes of the signup endpoint: the HTTP 400 raised when the
email is already registered (before any row is added), and the `TypeError`
raised by the `AccountHolder` constructor (before any commit). -/
inductive SignupError where
  | emailTaken
  | typeError (kw : String)
deriving DecidableEq, Repr

/-- The signup endpoint (api/v1/auth.py `signup`): reject an already-known
login email with the 400 error; otherwise create the AuthUser and construct
`AccountHolder(user_id=..., first_name=..., last_name=..., ...)`, whose
keyword arguments must be mapped attributes of the model.  The successful
201 `AccountHolderWithUser` response is modelled as `Unit`: the theorem
shows it is never produced, since the constructor call fails first. -/
def signup (existingEmails : List String) (payload : AuthUserCreate) :
    Except SignupError Unit :=
  if existingEmails.contains payload.email then
    .error .emailTaken
  else
    match declarativeCtorCheck accountHolderAttributes signupHolderKwargs with
    | .error k => .error (.typeError k)
    | .ok _ => .ok ()

/-- The first keyword argument of the holder construction that is not a
mapped attribute of `AccountHolder`. -/
def kwFirstName : String := "first_name"

/-- C10: the signup endpoint never returns its successful 201 response: if
the email is already registered it fails with the 400 email-taken error
raised before anything is written, and otherwise the
`AccountHolder(first_name=..., last_name=..., ...)` construction raises
`TypeError` on `first_name` — the model defines only `full_name` — before
any AccountHolder is committed. -/
theorem signup_never_succeeds (existingEmails : List String)
    (payload : AuthUserCreate) :
    (signup existingEmails payload).isOk = false ∧
    (existingEmails.contains payload.email = true →
      signup existingEmails payload = .error .emailTaken) ∧
    (existingEmails.contains payload.email = false →
      signup existingEmails payload = .error (.typeError kwFirstName)) := by
  have hctor : declarativeCtorCheck accountHolderAttributes signupHolderKwargs =
      .error kwFirstName := rfl
  by_cases h : existingEmails.contains payload.email = true
  · have hm : payload.email ∈ existingEmails := by simpa using h
    refine ⟨?_, fun _ => ?_, fun hc => ?_⟩
    · simp [signup, hm, Except.isOk, Except.toBool]
    · simp [signup, hm]
    · rw [h] at hc
      cases hc
  · have h' : existingEmails.contains payload.email = false := by
      simpa using h
    have hm : payload.email ∉ existingEmails := by simpa using h'
    refine ⟨?_, fun hc => ?_, fun _ => ?_⟩
    · simp [signup, hm, hctor, Except.isOk, Except.toBool]
    · rw [h'] at hc
      cases hc
    · simp [signup, hm, hctor]

/-- Demo payload for the signup witness. -/
def demoPayload : AuthUserCreate :=
  { email := "new.user@example.com", password := "S3cret",
    first_name := "John", last_name := "Doe",
    date_of_birth := "1990-01-15", national_id_number := "ABC123456",
    phone_number := "+48 123 456 789" }

theorem signup_never_succeeds_witness :
    signup [] demoPayload = .error (.typeError kwFirstName) :=
  (signup_never_succeeds [] demoPayload).2.2 rfl

end Banking
